import Mathlib

/-!
A shallow embedding of the batched ledger scanner from
`src/rust/src/api/blocking.rs` (`AleoAPIClient::get_blocks` and
`AleoAPIClient::scan`), together with proofs of the numerical,
functional-correctness and error-handling properties of the scanner.

Machine integers: block heights are Rust `u32`; all arithmetic is modelled
on `Nat` with an explicit `% 2^32` exactly where the Rust code can wrap
(the aligned-end computation `end + (50 - end % 50)` and the per-window
`start_height + 50`).  Subtraction sites in the source can never underflow
(`start - start % 50`, `50 - end % 50`, and `end_height - start_height`
behind a `start_height < end_height` guard), so `Nat` truncated subtraction
coincides with `u32` subtraction there.

External collaborators (HTTP transport, the `snarkvm` credential and record
cryptography) are modelled as opaque capabilities carried by a `ScanEnv`:
a network oracle for the body of `get_blocks` after its precondition
checks, an address x-coordinate derivation, and an ownership predicate.
The fallible `TryInto<ViewKey>` conversion is modelled by an
`Option ViewKey` argument (`none` = conversion failed).
-/

namespace AleoScan

/-- The modulus of Rust `u32` arithmetic, `2^32`. -/
def U32MOD : Nat := 4294967296

/-- An encrypted record (`Record<N, Ciphertext<N>>`): opaque payload data;
only the external ownership predicate inspects it. -/
structure Rec where
  owner : Nat
  payload : Nat
deriving DecidableEq

/-- A ledger block, opaque to the scanner except for its height and the
`(commitment, record)` pairs produced by `block.into_records()`. -/
structure Block where
  height : Nat
  records : List (Nat × Rec)
deriving DecidableEq

/-- A view key (`ViewKey<N>`), opaque credential material. -/
structure ViewKey where
  key : Nat
deriving DecidableEq

/-- The external collaborators consumed by the scanner:
`toAddressX` models `view_key.to_address().to_x_coordinate()`,
`isOwner` models `record.is_owner_with_address_x_coordinate(view_key, x)`,
and `net` models the HTTP round-trip performed by `get_blocks` after its
precondition checks succeed. -/
structure ScanEnv where
  toAddressX : ViewKey → Nat
  isOwner : Rec → ViewKey → Nat → Bool
  net : Nat → Nat → Except String (List Block)

/-- `AleoAPIClient::get_blocks` (blocking.rs lines 63-77): two precondition
checks, then the network request.  The error branches return without
consulting `env.net`, so in the error cases the result is the same for
every network oracle. -/
def get_blocks (env : ScanEnv) (start_height end_height : Nat) :
    Except String (List Block) :=
  if start_height ≥ end_height then
    Except.error "Start height must be less than end height"
  else if end_height - start_height > 50 then
    Except.error "Cannot request more than 50 blocks at a time"
  else
    env.net start_height end_height

/-- `start_block_height` (blocking.rs line 135): the requested start rounded
down to the nearest multiple of 50.  `u32` subtraction here never
underflows, so plain `Nat` subtraction is exact. -/
def alignedStart (s : Nat) : Nat := s - s % 50

/-- `end_block_height` (blocking.rs line 137): the requested end rounded up
to the next multiple of 50, under wrapping `u32` addition. -/
def alignedEnd (e : Nat) : Nat := (e + (50 - e % 50)) % U32MOD

/-- The window starts iterated by `(start_block_height..end_block_height)
.step_by(50)` (blocking.rs line 142): `a, a+50, a+100, ...` while `< b`. -/
def windowStarts (a b : Nat) : List Nat :=
  List.range' a ((b - a + 49) / 50) 50

/-- The body of the `for` loop in `scan` (blocking.rs lines 142-156), one
iteration per window start: fetch the page `[w, w+50)` (the `u32` sum
`start_height + 50` wraps in release builds, hence the `% U32MOD`),
flat-map the blocks into their records, keep the owned ones, and fail fast
on any fetch error. -/
def scanLoop (env : ScanEnv) (vk : ViewKey) (x : Nat) :
    List Nat → Except String (List (Nat × Rec))
  | [] => Except.ok []
  | w :: ws => do
      let blocks ← get_blocks env w ((w + 50) % U32MOD)
      let owned := (blocks.flatMap Block.records).filter
        (fun cr => env.isOwner cr.2 vk x)
      let rest ← scanLoop env vk x ws
      Except.ok (owned ++ rest)

/-- `AleoAPIClient::scan` (blocking.rs lines 124-159): convert the view key
(failure modelled by `none`), derive the address x-coordinate once,
normalize the requested range `[bstart, bend)` to aligned boundaries, and
run the window loop. -/
def scan (env : ScanEnv) (view_key : Option ViewKey) (bstart bend : Nat) :
    Except String (List (Nat × Rec)) :=
  match view_key with
  | none => Except.error "Invalid view key"
  | some vk =>
      scanLoop env vk (env.toAddressX vk)
        (windowStarts (alignedStart bstart) (alignedEnd bend))

/-- An idealized honest network oracle: a request for `[s, e)` returns
exactly the ledger's blocks at heights `s, s+1, ..., e-1`, in order. -/
def honestNet (ledger : Nat → Block) : Nat → Nat → Except String (List Block) :=
  fun s e => Except.ok ((List.range' s (e - s)).map ledger)

/-- The `(commitment, record)` pairs at heights `[a, b)` of a ledger that
pass the filter `keep`, ordered by ascending height and, within one block,
by extraction order. -/
def ownedIn (ledger : Nat → Block) (keep : Nat × Rec → Bool) (a b : Nat) :
    List (Nat × Rec) :=
  ((List.range' a (b - a)).map (fun h => (ledger h).records.filter keep)).flatten

/-- A concrete view key used to instantiate the theorems. -/
def demoVK : ViewKey := ⟨0⟩

/-- A concrete ledger: one record at height 30, empty blocks elsewhere. -/
def demoLedger : Nat → Block :=
  fun h => if h = 30 then ⟨30, [(7, ⟨1, 2⟩)]⟩ else ⟨h, []⟩

/-- A concrete environment over `demoLedger` whose ownership test accepts
every record. -/
def demoEnv : ScanEnv :=
  ⟨fun _ => 0, fun _ _ _ => true, honestNet demoLedger⟩

/-- A concrete environment whose network oracle always fails. -/
def failEnv : ScanEnv :=
  ⟨fun _ => 0, fun _ _ _ => true, fun _ _ => Except.error "boom"⟩

/-! ### Helper lemmas about the window sequence -/

lemma windowStarts_nil {a b : Nat} (h : b ≤ a) : windowStarts a b = [] := by
  have h0 : b - a = 0 := Nat.sub_eq_zero_of_le h
  simp [windowStarts, h0]

lemma windowStarts_cons {a b : Nat} (h : a < b) :
    windowStarts a b = a :: windowStarts (a + 50) b := by
  have h1 : (b - a + 49) / 50 = (b - (a + 50) + 49) / 50 + 1 := by omega
  rw [windowStarts, h1, List.range'_succ, windowStarts]

lemma mem_windowStarts {w a b : Nat} (hw : w ∈ windowStarts a b) :
    a ≤ w ∧ w < b ∧ w % 50 = a % 50 := by
  rw [windowStarts, List.mem_range'] at hw
  obtain ⟨i, hi, rfl⟩ := hw
  omega

lemma windowStarts_sorted (a b : Nat) :
    List.Pairwise (· < ·) (windowStarts a b) :=
  List.pairwise_lt_range' a _ 50

/-- Key `u32` safety fact: for every window start `w` the loop can reach,
the page end `w + 50` still fits in a `u32`, so the wrapping addition in
the loop body is exact. -/
lemma window_add_lt {s e w : Nat} (he : e < U32MOD)
    (hw : w ∈ windowStarts (alignedStart s) (alignedEnd e)) :
    w + 50 < U32MOD := by
  obtain ⟨h1, h2, h3⟩ := mem_windowStarts hw
  have hs0 : alignedStart s % 50 = 0 := by
    unfold alignedStart
    omega
  have hw0 : w % 50 = 0 := by omega
  rw [alignedEnd] at h2
  have hmul : (e + (50 - e % 50)) % 50 = 0 := by omega
  by_cases hcase : e + (50 - e % 50) < U32MOD
  · rw [Nat.mod_eq_of_lt hcase] at h2
    unfold U32MOD at *
    omega
  · have hwrap : (e + (50 - e % 50)) % U32MOD = e + (50 - e % 50) - U32MOD := by
      unfold U32MOD at *
      omega
    rw [hwrap] at h2
    unfold U32MOD at *
    omega

/-- Every `get_blocks` call issued by the window loop passes both
precondition checks and reduces to the raw network request. -/
lemma get_blocks_window (env : ScanEnv) {s e w : Nat} (he : e < U32MOD)
    (hw : w ∈ windowStarts (alignedStart s) (alignedEnd e)) :
    (w + 50) % U32MOD = w + 50 ∧
      get_blocks env w ((w + 50) % U32MOD) = env.net w (w + 50) := by
  have h50 := window_add_lt he hw
  have hmod : (w + 50) % U32MOD = w + 50 := Nat.mod_eq_of_lt h50
  refine ⟨hmod, ?_⟩
  rw [hmod]
  unfold get_blocks
  rw [if_neg (by omega), if_neg (by omega)]

/-- The windows of an aligned span `[a, a + 50*n)` exactly cover it:
concatenating the fetched height pages reproduces the span, with no gaps
and no overlaps. -/
lemma windows_cover (n : Nat) : ∀ a : Nat,
    ((windowStarts a (a + 50 * n)).map (fun w => List.range' w 50)).flatten =
      List.range' a (50 * n) := by
  induction n with
  | zero =>
      intro a
      rw [Nat.mul_zero, Nat.add_zero, windowStarts_nil (Nat.le_refl a)]
      rfl
  | succ n ih =>
      intro a
      rw [windowStarts_cons (by omega)]
      have h : a + 50 * (n + 1) = (a + 50) + 50 * n := by ring
      rw [h]
      simp only [List.map_cons, List.flatten_cons, ih (a + 50)]
      rw [List.range'_append_1, Nat.mul_succ]

/-! ### Helper lemmas about the scanning loop -/

/-- One successful loop iteration: the window's fetch succeeds and the
rest of the loop succeeds. -/
lemma scanLoop_cons_ok {env : ScanEnv} {vk : ViewKey} {x : Nat}
    {w : Nat} {ws : List Nat} {bs : List Block} {rs : List (Nat × Rec)}
    (hbs : get_blocks env w ((w + 50) % U32MOD) = Except.ok bs)
    (hrs : scanLoop env vk x ws = Except.ok rs) :
    scanLoop env vk x (w :: ws) =
      Except.ok ((bs.flatMap Block.records).filter
        (fun cr => env.isOwner cr.2 vk x) ++ rs) := by
  rw [scanLoop]
  simp only [hbs, hrs]
  rfl

/-- A loop iteration whose own fetch fails aborts with that error. -/
lemma scanLoop_cons_err_head {env : ScanEnv} {vk : ViewKey} {x : Nat}
    {w : Nat} {ws : List Nat} {msg : String}
    (herr : get_blocks env w ((w + 50) % U32MOD) = Except.error msg) :
    scanLoop env vk x (w :: ws) = Except.error msg := by
  rw [scanLoop, herr]
  rfl

/-- A loop iteration whose fetch succeeds but whose continuation fails
propagates the continuation's error, discarding this window's records. -/
lemma scanLoop_cons_err_tail {env : ScanEnv} {vk : ViewKey} {x : Nat}
    {w : Nat} {ws : List Nat} {bs : List Block} {msg : String}
    (hbs : get_blocks env w ((w + 50) % U32MOD) = Except.ok bs)
    (hrs : scanLoop env vk x ws = Except.error msg) :
    scanLoop env vk x (w :: ws) = Except.error msg := by
  rw [scanLoop]
  simp only [hbs, hrs]
  rfl

/-- If every window's fetch succeeds, the loop succeeds. -/
lemma scanLoop_ok {env : ScanEnv} {vk : ViewKey} {x : Nat} :
    ∀ ws : List Nat,
      (∀ w ∈ ws, ∃ bs, get_blocks env w ((w + 50) % U32MOD) = Except.ok bs) →
      ∃ rs, scanLoop env vk x ws = Except.ok rs := by
  intro ws
  induction ws with
  | nil => exact fun _ => ⟨[], rfl⟩
  | cons w ws ih =>
      intro h
      obtain ⟨bs, hbs⟩ := h w (List.mem_cons_self w ws)
      obtain ⟨rs, hrs⟩ := ih (fun w' hw' => h w' (List.mem_cons_of_mem _ hw'))
      exact ⟨_, scanLoop_cons_ok hbs hrs⟩

/-- If the fetch for window `w` fails and every window before `w` succeeds,
the loop aborts with exactly `w`'s error: nothing collected from the
earlier successful windows survives. -/
lemma scanLoop_first_error {env : ScanEnv} {vk : ViewKey} {x : Nat}
    {msg : String} :
    ∀ ws : List Nat, ∀ w ∈ ws,
      List.Pairwise (· < ·) ws →
      (∀ w' ∈ ws, w' < w →
        ∃ bs, get_blocks env w' ((w' + 50) % U32MOD) = Except.ok bs) →
      get_blocks env w ((w + 50) % U32MOD) = Except.error msg →
      scanLoop env vk x ws = Except.error msg := by
  intro ws
  induction ws with
  | nil => exact fun w hw => absurd hw (List.not_mem_nil w)
  | cons a ws ih =>
      intro w hw hpair hok herr
      rcases List.mem_cons.mp hw with rfl | hw'
      · exact scanLoop_cons_err_head herr
      · have ha_lt : a < w := (List.pairwise_cons.mp hpair).1 w hw'
        obtain ⟨bs, hbs⟩ := hok a (List.mem_cons_self a ws) ha_lt
        have hrest := ih w hw' (List.pairwise_cons.mp hpair).2
          (fun w' hw'' hlt => hok w' (List.mem_cons_of_mem a hw'') hlt) herr
        exact scanLoop_cons_err_tail hbs hrest

/-- Running the loop over the windows of an aligned span `[a, a + 50*n)`
against an honest network yields exactly the owned records of that span,
in ascending height order, then extraction order within a block. -/
lemma scanLoop_honest {env : ScanEnv} {ledger : Nat → Block}
    (hnet : env.net = honestNet ledger) (vk : ViewKey) (x : Nat) (n : Nat) :
    ∀ a : Nat, a + 50 * n < U32MOD →
      scanLoop env vk x (windowStarts a (a + 50 * n)) =
        Except.ok (ownedIn ledger (fun cr => env.isOwner cr.2 vk x)
          a (a + 50 * n)) := by
  induction n with
  | zero =>
      intro a _
      rw [Nat.mul_zero, Nat.add_zero, windowStarts_nil (Nat.le_refl a)]
      rw [scanLoop, ownedIn, Nat.sub_self a]
      rfl
  | succ n ih =>
      intro a hbound
      have hmod : (a + 50) % U32MOD = a + 50 :=
        Nat.mod_eq_of_lt (by omega)
      have h50 : a + 50 - a = 50 := by omega
      have hget : get_blocks env a ((a + 50) % U32MOD) =
          Except.ok ((List.range' a 50).map ledger) := by
        rw [hmod]
        unfold get_blocks
        rw [if_neg (by omega), if_neg (by omega), hnet]
        unfold honestNet
        rw [h50]
      have htail : a + 50 * (n + 1) = (a + 50) + 50 * n := by ring
      have hih := ih (a + 50) (by omega)
      rw [windowStarts_cons (by omega), htail, scanLoop_cons_ok hget hih]
      congr 1
      rw [ownedIn, ownedIn]
      have hspan : a + 50 + 50 * n - a = 50 * n + 50 := by omega
      have hspan2 : a + 50 + 50 * n - (a + 50) = 50 * n := by omega
      rw [hspan, hspan2, ← List.range'_append_1]
      rw [List.map_append, List.flatten_append]
      congr 1
      rw [List.filter_flatMap, List.flatMap_def, List.map_map]
      rfl

/-! ### Claim theorems -/

/-- C2, counterexample: at `end = u32::MAX = 4294967295` the wrapping
aligned-end computation yields `4`, which is not strictly greater than
`end`, so the claimed law does not hold for every `u32` end. -/
theorem C2_counterexample :
    alignedEnd 4294967295 = 4 ∧ ¬ (4294967295 < alignedEnd 4294967295) :=
  ⟨rfl, by decide⟩

/-- C2 (amended): for every `end ≤ 4294967249` — exactly the values for
which `end + (50 - end % 50)` does not overflow `u32` — the aligned end is
strictly greater than `end`, and when `end` is already a multiple of 50 a
full extra batch width of 50 is added. -/
theorem C2_aligned_end_gt (e : Nat) (he : e ≤ 4294967249) :
    e < alignedEnd e ∧ (e % 50 = 0 → alignedEnd e = e + 50) := by
  unfold alignedEnd U32MOD
  constructor
  · omega
  · intro h0
    omega

theorem C2_witness :
    (100 ≤ 4294967249) ∧ 100 < alignedEnd 100 ∧ alignedEnd 100 = 100 + 50 :=
  ⟨by decide, (C2_aligned_end_gt 100 (by decide)).1,
    (C2_aligned_end_gt 100 (by decide)).2 (by decide)⟩

/-- C3: `aligned_start = start - start % 50` is a multiple of 50, is at
most `start`, and dominates every multiple of 50 that is `≤ start`: it is
the greatest multiple of 50 that is `≤ start`. -/
theorem C3_aligned_start_greatest (s : Nat) :
    alignedStart s % 50 = 0 ∧ alignedStart s ≤ s ∧
      ∀ m : Nat, m % 50 = 0 → m ≤ s → m ≤ alignedStart s := by
  unfold alignedStart
  exact ⟨by omega, by omega, fun m hm hle => by omega⟩

theorem C3_witness :
    alignedStart 123 % 50 = 0 ∧ alignedStart 123 ≤ 123 ∧
      100 ≤ alignedStart 123 :=
  ⟨(C3_aligned_start_greatest 123).1, (C3_aligned_start_greatest 123).2.1,
    (C3_aligned_start_greatest 123).2.2 100 (by decide) (by decide)⟩

/-- C4, counterexample: for the requested range `0..4294967295` the
aligned end wraps to `4`, the loop runs the single window `[0, 50)`, and
the concatenation of the fetched windows is `[0, 50)`, not the normalized
interval `[aligned_start, aligned_end) = [0, 4)`: the windows do not
exactly cover the normalized interval for every requested range. -/
theorem C4_counterexample :
    windowStarts (alignedStart 0) (alignedEnd 4294967295) = [0] ∧
    ((windowStarts (alignedStart 0) (alignedEnd 4294967295)).map
        (fun w => List.range' w 50)).flatten ≠
      List.range' (alignedStart 0) (alignedEnd 4294967295 - alignedStart 0) :=
  ⟨rfl, by decide⟩

/-- C4 (amended): for every requested range whose end is at most
4294967249 (no `u32` overflow in the aligned end), every iterated window
start is a multiple of 50 lying in `[aligned_start, aligned_end)`, and the
windows `[w, w+50)`, in iteration order, exactly cover
`[aligned_start, aligned_end)` with no gaps and no overlaps. -/
theorem C4_windows_cover (s e : Nat) (_hs : s < U32MOD)
    (he : e ≤ 4294967249) :
    (∀ w ∈ windowStarts (alignedStart s) (alignedEnd e),
        w % 50 = 0 ∧ alignedStart s ≤ w ∧ w < alignedEnd e) ∧
    ((windowStarts (alignedStart s) (alignedEnd e)).map
        (fun w => List.range' w 50)).flatten =
      List.range' (alignedStart s) (alignedEnd e - alignedStart s) := by
  have hsA : alignedStart s % 50 = 0 := by
    unfold alignedStart
    omega
  have hEA : alignedEnd e = e + (50 - e % 50) := by
    unfold alignedEnd U32MOD
    omega
  have hE50 : alignedEnd e % 50 = 0 := by
    rw [hEA]
    omega
  constructor
  · intro w hw
    obtain ⟨h1, h2, h3⟩ := mem_windowStarts hw
    exact ⟨by omega, h1, h2⟩
  · rcases Nat.lt_or_ge (alignedStart s) (alignedEnd e) with hab | hab
    · obtain ⟨n, hn⟩ : ∃ n, alignedEnd e = alignedStart s + 50 * n :=
        ⟨(alignedEnd e - alignedStart s) / 50, by omega⟩
      rw [hn, windows_cover n (alignedStart s), Nat.add_sub_cancel_left]
    · rw [windowStarts_nil hab, Nat.sub_eq_zero_of_le hab]
      rfl

theorem C4_witness :
    windowStarts (alignedStart 0) (alignedEnd 3) = [0] ∧
    ((windowStarts (alignedStart 0) (alignedEnd 3)).map
        (fun w => List.range' w 50)).flatten =
      List.range' (alignedStart 0) (alignedEnd 3 - alignedStart 0) :=
  ⟨by decide, (C4_windows_cover 0 3 (by decide) (by decide)).2⟩

/-- C5: every `get_blocks` call issued from inside `scan` — i.e. the call
for any window start `w` the loop iterates — satisfies the fetcher's
preconditions: the window end is strictly greater than `w`, its width is
exactly 50 (hence at most 50), and `get_blocks` passes both checks and
reduces to the raw network request, so neither precondition-violation
error branch is reachable from `scan`. -/
theorem C5_fetch_preconditions (env : ScanEnv) (s e w : Nat)
    (_hs : s < U32MOD) (he : e < U32MOD)
    (hw : w ∈ windowStarts (alignedStart s) (alignedEnd e)) :
    w < (w + 50) % U32MOD ∧ (w + 50) % U32MOD - w = 50 ∧
      get_blocks env w ((w + 50) % U32MOD) =
        env.net w ((w + 50) % U32MOD) := by
  obtain ⟨hmod, hgb⟩ := get_blocks_window env he hw
  rw [hmod] at hgb ⊢
  exact ⟨by omega, by omega, hgb⟩

theorem C5_witness :
    (0 ∈ windowStarts (alignedStart 0) (alignedEnd 3)) ∧
    get_blocks demoEnv 0 ((0 + 50) % U32MOD) =
      demoEnv.net 0 ((0 + 50) % U32MOD) :=
  ⟨by decide, (C5_fetch_preconditions demoEnv 0 3 0 (by decide) (by decide)
    (by decide)).2.2⟩

/-- C6, counterexample: the two precondition errors are returned, but
their texts are "Start height must be less than end height" and
"Cannot request more than 50 blocks at a time", neither of which is the
message quoted by the claim, so the claim's quoted error strings are wrong
at the concrete inputs `(5, 3)` and `(0, 60)`. -/
theorem C6_counterexample :
    get_blocks demoEnv 5 3 =
      Except.error "Start height must be less than end height" ∧
    "Start height must be less than end height" ≠
      "start must be less than end" ∧
    get_blocks demoEnv 0 60 =
      Except.error "Cannot request more than 50 blocks at a time" ∧
    "Cannot request more than 50 blocks at a time" ≠
      "cannot request more than 50 blocks at a time" :=
  ⟨rfl, by decide, rfl, by decide⟩

/-- C6 (amended): for every `(start_height, end_height)`, `get_blocks`
returns the error "Start height must be less than end height" when
`start_height ≥ end_height`, and the error "Cannot request more than 50
blocks at a time" when `end_height - start_height > 50`; both branches
hold for every environment, i.e. independently of the network oracle, so
no network request is issued in either case. -/
theorem C6_get_blocks_errors (env : ScanEnv) (s e : Nat) :
    (e ≤ s → get_blocks env s e =
      Except.error "Start height must be less than end height") ∧
    (s < e → 50 < e - s → get_blocks env s e =
      Except.error "Cannot request more than 50 blocks at a time") := by
  constructor
  · intro h
    unfold get_blocks
    rw [if_pos (by omega)]
  · intro h1 h2
    unfold get_blocks
    rw [if_neg (by omega), if_pos (by omega)]

theorem C6_witness :
    get_blocks failEnv 5 3 =
      Except.error "Start height must be less than end height" ∧
    get_blocks failEnv 0 60 =
      Except.error "Cannot request more than 50 blocks at a time" :=
  ⟨(C6_get_blocks_errors failEnv 5 3).1 (by decide),
    (C6_get_blocks_errors failEnv 0 60).2 (by decide) (by decide)⟩

/-- C7: whenever view-key conversion fails (`none`), `scan` returns the
invalid-credential error "Invalid view key" immediately; the result is the
same for every environment — in particular for every network oracle — so
no block fetch is performed. -/
theorem C7_invalid_credential (env : ScanEnv) (s e : Nat) :
    scan env none s e = Except.error "Invalid view key" := rfl

/-- C8: if the block fetch for a window `w` fails (and `w` is the first
window whose fetch fails — every earlier window succeeds), `scan` returns
exactly that fetch error, and in particular returns no records at all:
the records collected from the earlier successful windows are discarded. -/
theorem C8_fail_fast {env : ScanEnv} (vk : ViewKey) (s e w : Nat)
    (msg : String)
    (hw : w ∈ windowStarts (alignedStart s) (alignedEnd e))
    (hearlier : ∀ w' ∈ windowStarts (alignedStart s) (alignedEnd e),
      w' < w → ∃ bs, get_blocks env w' ((w' + 50) % U32MOD) = Except.ok bs)
    (herr : get_blocks env w ((w + 50) % U32MOD) = Except.error msg) :
    scan env (some vk) s e = Except.error msg := by
  show scanLoop env vk (env.toAddressX vk)
    (windowStarts (alignedStart s) (alignedEnd e)) = Except.error msg
  exact scanLoop_first_error _ w hw
    (windowStarts_sorted (alignedStart s) (alignedEnd e)) hearlier herr

theorem C8_witness :
    scan failEnv (some demoVK) 0 3 = Except.error "boom" :=
  C8_fail_fast demoVK 0 3 0 "boom" (by decide)
    (fun w' _ hlt => absurd hlt (Nat.not_lt_zero w')) rfl

/-- C9: the scanner itself enforces no `start < end` precondition on the
requested range: for every inverted range (`end ≤ start`) over an honest
network, `scan` still succeeds (it never reports a range-inversion error
up front); the start-less-than-end check lives in the batch-fetch step,
which evaluates it on each call and rejects exactly the inverted windows
it is given. -/
theorem C9_no_scanner_precondition {env : ScanEnv} {ledger : Nat → Block}
    (vk : ViewKey) (s e : Nat) (_hinv : e ≤ s) (_hs : s < U32MOD)
    (he : e < U32MOD) (hnet : env.net = honestNet ledger) :
    (∃ rs, scan env (some vk) s e = Except.ok rs) ∧
    (∀ s' e' : Nat, e' ≤ s' → get_blocks env s' e' =
      Except.error "Start height must be less than end height") := by
  constructor
  · show ∃ rs, scanLoop env vk (env.toAddressX vk)
      (windowStarts (alignedStart s) (alignedEnd e)) = Except.ok rs
    apply scanLoop_ok
    intro w hw
    obtain ⟨hmod, hgb⟩ := get_blocks_window env he hw
    refine ⟨(List.range' w ((w + 50) - w)).map ledger, ?_⟩
    rw [hgb, hnet]
    rfl
  · intro s' e' h
    unfold get_blocks
    rw [if_pos (by omega)]

theorem C9_witness :
    (∃ rs, scan demoEnv (some demoVK) 100 3 = Except.ok rs) ∧
    get_blocks demoEnv 7 7 =
      Except.error "Start height must be less than end height" :=
  ⟨(C9_no_scanner_precondition demoVK 100 3 (by decide) (by decide)
      (by decide) rfl).1,
    (C9_no_scanner_precondition demoVK 100 3 (by decide) (by decide)
      (by decide) rfl).2 7 7 (by decide)⟩

/-- C10: for every `u32` end of at least 4294967250, the unwrapped sum
`end + (50 - end % 50)` exceeds `u32::MAX = 4294967295`; under wrapping
arithmetic the resulting aligned end is smaller than `end` and not a
multiple of 50, and every height fetched by any window of the loop is
below `aligned_end + 50`, itself far below `end` — so the heights near the
requested end are never fetched and the normalized range is not a superset
of the requested range. -/
theorem C10_wraparound (e : Nat) (h1 : 4294967250 ≤ e) (h2 : e < U32MOD) :
    4294967295 < e + (50 - e % 50) ∧
    alignedEnd e < e ∧
    alignedEnd e % 50 ≠ 0 ∧
    alignedEnd e + 50 < e ∧
    ∀ s w h : Nat, w ∈ windowStarts (alignedStart s) (alignedEnd e) →
      h ∈ List.range' w 50 → h < alignedEnd e + 50 := by
  have h4 : alignedEnd e = 4 := by
    unfold alignedEnd U32MOD at *
    omega
  refine ⟨?_, by omega, by rw [h4]; decide, by omega, ?_⟩
  · unfold U32MOD at h2
    omega
  · intro s w h hw hh
    have hwb := (mem_windowStarts hw).2.1
    rw [List.mem_range'_1] at hh
    omega

theorem C10_witness :
    alignedEnd 4294967295 < 4294967295 ∧
    alignedEnd 4294967295 % 50 ≠ 0 ∧
    3 < alignedEnd 4294967295 + 50 :=
  ⟨(C10_wraparound 4294967295 (by decide) (by decide)).2.1,
    (C10_wraparound 4294967295 (by decide) (by decide)).2.2.1,
    (C10_wraparound 4294967295 (by decide) (by decide)).2.2.2.2 0 0 3
      (by decide) (by decide)⟩

/-- C1, counterexample: for the requested range `0..4294967295` the
aligned end wraps to 4, yet the single window `[0, 50)` is still fetched,
and the scan returns the record at height 30 — a height outside the
normalized range `[0, 4)` — while the owned records of the normalized
range form the empty list; the requested range is also not contained in
the normalized range. The claim fails for this `u32` range. -/
theorem C1_counterexample :
    scan demoEnv (some demoVK) 0 4294967295 = Except.ok [(7, ⟨1, 2⟩)] ∧
    ownedIn demoLedger
      (fun cr => demoEnv.isOwner cr.2 demoVK (demoEnv.toAddressX demoVK))
      (alignedStart 0) (alignedEnd 4294967295) = [] ∧
    ¬ (4294967295 ≤ alignedEnd 4294967295) :=
  ⟨rfl, rfl, by decide⟩

/-- C1 (amended): for every requested range `[s, e)` with
`e ≤ 4294967249` (no `u32` overflow in the aligned end), a scan over an
honest network succeeds and returns exactly the owned records whose
containing block height lies in `[aligned_start, aligned_end)`, ordered by
ascending block height and then by within-block extraction order (this is
the order in which `ownedIn` enumerates them), and that normalized range
is a superset of `[s, e)`. -/
theorem C1_scan_exact {env : ScanEnv} {ledger : Nat → Block}
    (vk : ViewKey) (s e : Nat) (_hs : s < U32MOD) (he : e ≤ 4294967249)
    (hnet : env.net = honestNet ledger) :
    scan env (some vk) s e =
      Except.ok (ownedIn ledger
        (fun cr => env.isOwner cr.2 vk (env.toAddressX vk))
        (alignedStart s) (alignedEnd e)) ∧
    alignedStart s ≤ s ∧ e < alignedEnd e := by
  have hsA : alignedStart s % 50 = 0 := by
    unfold alignedStart
    omega
  have hEA : alignedEnd e = e + (50 - e % 50) := by
    unfold alignedEnd U32MOD
    omega
  have hE50 : alignedEnd e % 50 = 0 := by
    rw [hEA]
    omega
  have hEb : alignedEnd e < U32MOD := by
    rw [hEA]
    unfold U32MOD
    omega
  refine ⟨?_, by unfold alignedStart; omega, by rw [hEA]; omega⟩
  show scanLoop env vk (env.toAddressX vk)
      (windowStarts (alignedStart s) (alignedEnd e)) = _
  rcases Nat.lt_or_ge (alignedStart s) (alignedEnd e) with hab | hab
  · obtain ⟨n, hn⟩ : ∃ n, alignedEnd e = alignedStart s + 50 * n :=
      ⟨(alignedEnd e - alignedStart s) / 50, by omega⟩
    rw [hn]
    exact scanLoop_honest hnet vk _ n (alignedStart s) (by omega)
  · rw [windowStarts_nil hab, scanLoop, ownedIn,
      Nat.sub_eq_zero_of_le hab]
    rfl

theorem C1_witness :
    scan demoEnv (some demoVK) 0 3 =
      Except.ok (ownedIn demoLedger
        (fun cr => demoEnv.isOwner cr.2 demoVK (demoEnv.toAddressX demoVK))
        (alignedStart 0) (alignedEnd 3)) ∧
    alignedStart 0 ≤ 0 ∧ 3 < alignedEnd 3 :=
  C1_scan_exact demoVK 0 3 (by decide) (by decide) rfl

end AleoScan
